import Mathlib

/-!
Verification of the `xrl` line-cache and protocol layer.

This file gives a shallow embedding of the parts of the `xrl` crate that the
claims under scrutiny talk about:

* `src/cache.rs` — the `LineCache` diff/patch engine (`UpdateHelper` with
  `apply_copy`, `apply_skip`, `apply_invalidate`, `apply_insert`,
  `apply_update`).  The Rust code stores the materialized window in a
  `HashMap<u64, Line>`; we model that map as an association list
  (`List (Nat × α)`) on which the operations used by the code (`len`,
  `remove`, `remove_entry`, `insert`/`extend`, `clear`, iteration for
  `min`/`max`) are transcribed.  The iteration-order-sensitive operations the
  code performs (`min` over line numbers, `max` over keys) are order
  independent, so the list model is faithful.  A Rust `panic!` (and an
  `Option::unwrap` on `None`) is modeled by returning `none`.

* `src/protocol/message.rs` and `src/protocol/codec.rs` — the JSON message
  codec, modeled at the level of JSON values (`Json`), with `serde`'s derived
  serialization transcribed field by field (note that the derived
  `Serialize` for `Response` writes its `Result<Value, Value>` field in
  serde's externally-tagged form `{"Ok": v}` / `{"Err": v}` under the key
  `"result"`).  The `Codec::decode` scanning loop is modeled over the
  sequence of outcomes of the successive `Message::decode` attempts on the
  buffered bytes.

* `src/protocol/transport.rs` / `src/protocol/endpoint.rs` — `Transport::send`
  and `InnerClient::process_response`.

Machine integers (`u64`, `i64`) are modeled as `Nat`/`Int` with explicit
wrapping where the code performs `as` casts or arithmetic that can wrap.
-/

namespace Xrl

/-! ## 64-bit integer helpers -/

/-- `2 ^ 64`, the modulus of `u64` arithmetic. -/
def U64MOD : Nat := 2 ^ 64

/-- The value of a `u64` reinterpreted as an `i64` (the Rust `as i64` cast). -/
def asI64 (n : Nat) : Int :=
  if n % U64MOD < 2 ^ 63 then ((n % U64MOD : Nat) : Int)
  else ((n % U64MOD : Nat) : Int) - (U64MOD : Int)

/-- Wrap an integer into the `i64` range (two's complement). -/
def wrapI64 (x : Int) : Int := (x + 2 ^ 63).emod (U64MOD : Int) - 2 ^ 63

/-- Wrapping `i64` addition. -/
def i64Add (a b : Int) : Int := wrapI64 (a + b)

/-- Wrapping `i64` subtraction. -/
def i64Sub (a b : Int) : Int := wrapI64 (a - b)

/-- The value of an `i64` reinterpreted as a `u64` (the Rust `as u64` cast). -/
def asU64 (x : Int) : Nat := (x.emod (U64MOD : Int)).toNat

/-! ## Association-list model of `HashMap<u64, V>`

Only the operations `cache.rs` actually performs on its maps are provided.
`removeEntry` mirrors `HashMap::remove_entry` (and `remove`), `insertKey`
mirrors `HashMap::insert` (overwriting an existing key), `extendMap` mirrors
`Extend::extend`, and length/`is_empty` are the list versions.  Real
`LineCache` states have pairwise distinct keys, for which this model agrees
with the hash map. -/

/-- `HashMap::remove_entry`: remove the (first) entry with the given key,
returning its value and the remaining map. -/
def removeEntry (k : Nat) : List (Nat × α) → Option (α × List (Nat × α))
  | [] => none
  | (k', v) :: rest =>
    if k' = k then some (v, rest)
    else (removeEntry k rest).map (fun p => (p.1, (k', v) :: p.2))

/-- `HashMap::remove` with the returned value dropped. -/
def eraseKey (k : Nat) (m : List (Nat × α)) : List (Nat × α) :=
  match removeEntry k m with
  | none => m
  | some (_, m') => m'

/-- `HashMap::get`. -/
def lookupKey (k : Nat) : List (Nat × α) → Option α
  | [] => none
  | (k', v) :: rest => if k' = k then some v else lookupKey k rest

/-- `HashMap::insert`: overwrite the entry for `k` if present, else add it. -/
def insertKey (k : Nat) (v : α) : List (Nat × α) → List (Nat × α)
  | [] => [(k, v)]
  | (k', v') :: rest => if k' = k then (k, v) :: rest else (k', v') :: insertKey k v rest

/-- `HashMap::extend`: insert every pair of `l` in order. -/
def extendMap (m : List (Nat × α)) (l : List (Nat × α)) : List (Nat × α) :=
  l.foldl (fun acc p => insertKey p.1 p.2 acc) m

/-! ## Data model of `cache.rs`

`cache.rs` uses (`use crate::{Line, Operation, OperationType, Update}`) a
`Line` carrying `text`, `cursor`, `styles` and an optional absolute line
number `line_num`, and an `Operation` carrying `operation_type`, `nb_lines`,
`line_num` and `lines` (the variant names `Copy_`, `Skip`, `Invalidate`,
`Insert`, `Update` are the ones `cache.rs` matches on). -/

structure StyleDef where
  offset : Int
  length : Nat
  style_id : Nat
deriving DecidableEq, Repr

structure Line where
  text : String
  cursor : List Nat
  styles : List StyleDef
  line_num : Option Nat
deriving DecidableEq, Repr

inductive OperationType where
  | Copy_
  | Skip
  | Invalidate
  | Insert
  | Update
deriving DecidableEq, Repr

structure Operation where
  operation_type : OperationType
  nb_lines : Nat
  line_num : Option Nat
  lines : List Line
deriving DecidableEq, Repr

/-- The `Update` payload as consumed by `LineCache::update` (`rev` and the
operation list are the fields the cache code touches). -/
structure Update where
  rev : Option Nat
  operations : List Operation
deriving DecidableEq, Repr

/-- The map `LineCache` stores its materialized window in. -/
abbrev LineMap := List (Nat × Line)

/-- `LineCache { invalid_before, lines, invalid_after }`. -/
structure LineCache where
  invalid_before : Nat
  lines : LineMap
  invalid_after : Nat
deriving DecidableEq, Repr

/-- `LineCache::before`. -/
def LineCache.before (c : LineCache) : Nat := c.invalid_before

/-- `LineCache::after`. -/
def LineCache.after (c : LineCache) : Nat := c.invalid_after

/-- `LineCache::height`: `before() + lines.len() + after()`. -/
def LineCache.height (c : LineCache) : Nat :=
  c.before + c.lines.length + c.after

/-- `LineCache::is_empty`: the code returns `self.lines.is_empty()`. -/
def LineCache.isEmpty (c : LineCache) : Bool := c.lines.isEmpty

/-! ## The `UpdateHelper` state and the per-operation functions -/

structure UpdateHelper where
  old_lines : LineMap
  old_invalid_before : Nat
  old_invalid_after : Nat
  new_lines : LineMap
  new_invalid_before : Nat
  new_invalid_after : Nat
deriving DecidableEq, Repr

/-- `old_lines.iter().filter_map(|(_, line)| line.line_num).min().unwrap_or(0)`:
the smallest known line number in the map, `0` when none is known. -/
def minLineNum (m : LineMap) : Nat :=
  (((m.map Prod.snd).filterMap Line.line_num).min?).getD 0

/-- The keys' maximum, `self.new_lines.keys().max()`. -/
def maxKey (m : LineMap) : Option Nat := (m.map Prod.fst).max?

/-- The `diff` computed by `apply_copy` when the operation carries a new first
line number: `new_first_line_num as i64 - num as i64`, where `num` is
`minLineNum` of the (whole) old map; `0` when no line number is supplied. -/
def copyDiff (firstLineNum : Option Nat) (m : LineMap) : Int :=
  match firstLineNum with
  | some nfln => i64Sub (asI64 nfln) (asI64 (minLineNum m))
  | none => 0

/-- Renumbering applied to each copied line:
`line.line_num.map(|n| (n as i64 + diff) as u64)`. -/
def renumber (diff : Int) (l : Line) : Line :=
  { l with line_num := l.line_num.map (fun ln => asU64 (i64Add (asI64 ln) diff)) }

/-- `range.map(|i| old_lines.remove_entry(&(i as u64)).unwrap())` for the range
`start..start+count`: sequentially remove the entries with keys
`start, start + 1, …`; an `unwrap` of a missing key is the `none` (panic)
outcome. -/
def takeFrom : Nat → LineMap → Nat → Option (List (Nat × Line) × LineMap)
  | 0, m, _ => some ([], m)
  | count + 1, m, start =>
    match removeEntry start m with
    | none => none
    | some (l, m') =>
      (takeFrom count m' (start + 1)).map (fun p => ((start, l) :: p.1, p.2))

/-- Step 3 of `apply_copy` (shared tail): with `nb2` lines still to copy
after the valid lines were handled, return when `nb2 = 0`, else draw the rest
from the trailing invalid lines, else panic. -/
def copyFinish (h : UpdateHelper) (nb2 oib1 nib1 : Nat)
    (old' new' : LineMap) : Option UpdateHelper :=
  if nb2 = 0 then
    some { old_lines := old', old_invalid_before := oib1,
           old_invalid_after := h.old_invalid_after,
           new_lines := new', new_invalid_before := nib1,
           new_invalid_after := h.new_invalid_after }
  else if nb2 ≤ h.old_invalid_after then
    some { old_lines := old', old_invalid_before := oib1,
           old_invalid_after := h.old_invalid_after - nb2,
           new_lines := new', new_invalid_before := nib1,
           new_invalid_after := h.new_invalid_after + nb2 }
  else none

/-- Steps 2 and 3 of `apply_copy` (the valid lines and the trailing invalid
lines), entered with `nb1` lines still to copy, and the already-updated
`old_invalid_before`/`new_invalid_before` counters `oib1`/`nib1`. -/
def copyStep23 (h : UpdateHelper) (nb1 oib1 nib1 : Nat)
    (firstLineNum : Option Nat) : Option UpdateHelper :=
  let nbValid := h.old_lines.length
  let k := if nb1 ≤ nbValid then nb1 else nbValid
  let nb2 := nb1 - k
  if 0 < nbValid then
    match takeFrom k h.old_lines 0 with
    | none => none
    | some (copied, old') =>
      copyFinish h nb2 oib1 nib1 old'
        (extendMap h.new_lines
          (copied.map (fun p => (p.1, renumber (copyDiff firstLineNum h.old_lines) p.2))))
  else copyFinish h nb2 oib1 nib1 h.old_lines h.new_lines

/-- `UpdateHelper::apply_copy`. -/
def applyCopy (h : UpdateHelper) (nbLines : Nat) (firstLineNum : Option Nat) :
    Option UpdateHelper :=
  if nbLines ≤ h.old_invalid_before then
    some { h with old_invalid_before := h.old_invalid_before - nbLines,
                  new_invalid_before := h.new_invalid_before + nbLines }
  else if 0 < h.old_invalid_after then
    copyStep23 h (nbLines - h.old_invalid_before) 0
      (h.new_invalid_before + h.old_invalid_before) firstLineNum
  else
    copyStep23 h nbLines h.old_invalid_before h.new_invalid_before firstLineNum

/-- `UpdateHelper::apply_skip`. -/
def applySkip (h : UpdateHelper) (nbLines : Nat) : Option UpdateHelper :=
  if nbLines < h.old_invalid_before then
    some { h with old_invalid_before := h.old_invalid_before - nbLines }
  else
    let nb1 := nbLines - h.old_invalid_before
    let nbValid := h.old_lines.length
    if nb1 < nbValid then
      some { h with old_invalid_before := 0,
                    old_lines := (List.range nb1).foldl (fun m i => eraseKey i m) h.old_lines }
    else
      let nb2 := nb1 - nbValid
      if nb2 ≤ h.old_invalid_after then
        some { h with old_invalid_before := 0, old_lines := [],
                      old_invalid_after := h.old_invalid_after - nb2 }
      else none

/-- `UpdateHelper::apply_invalidate`. -/
def applyInvalidate (h : UpdateHelper) (nbLines : Nat) : UpdateHelper :=
  if h.new_lines.isEmpty then
    { h with new_invalid_before := h.new_invalid_before + nbLines }
  else
    { h with new_invalid_after := h.new_invalid_after + nbLines }

/-- `trim_new_line`: drop one trailing `'\n'` if present. -/
def trimNewLine (s : String) : String :=
  match s.toList.getLast? with
  | some c => if c = '\n' then (s.toList.dropLast).asString else s
  | none => s

/-- The `extend` loop of `apply_insert`: keys continue from `lastLine + 1`
(`last_line` is an `i64` starting at the maximum existing key, or `-1`). -/
def insertFrom : List Line → Int → LineMap → LineMap
  | [], _, m => m
  | l :: ls, lastLine, m =>
    let nl := i64Add lastLine 1
    insertFrom ls nl (insertKey (asU64 nl) { l with text := trimNewLine l.text } m)

/-- `UpdateHelper::apply_insert`. -/
def applyInsert (h : UpdateHelper) (lines : List Line) : UpdateHelper :=
  let lastLine : Int :=
    match maxKey h.new_lines with
    | some k => asI64 k
    | none => -1
  { h with new_lines := insertFrom lines lastLine h.new_lines }

/-- The `range.map(remove_entry(..).unwrap()).zip(lines)` pipeline of
`apply_update`: when the supplied `lines` run out first, the zip still pulls
(and drops) one more entry from the old map. -/
def zipTake : Nat → LineMap → Nat → List Line → Option (List (Nat × Line) × LineMap)
  | 0, m, _, _ => some ([], m)
  | _ + 1, m, start, [] =>
    match removeEntry start m with
    | none => none
    | some (_, m') => some ([], m')
  | count + 1, m, start, u :: us =>
    match removeEntry start m with
    | none => none
    | some (l, m') =>
      (zipTake count m' (start + 1) us).map
        (fun p => ((start, { l with cursor := u.cursor, styles := u.styles }) :: p.1, p.2))

/-- `UpdateHelper::apply_update`. -/
def applyUpdate (h : UpdateHelper) (nbLines : Nat) (lines : List Line) :
    Option UpdateHelper :=
  if h.old_lines.length < nbLines then none
  else
    match zipTake nbLines h.old_lines 0 lines with
    | none => none
    | some (pairs, old') =>
      some { h with old_lines := old', new_lines := extendMap h.new_lines pairs }

/-- One step of `UpdateHelper::update`'s loop. -/
def applyOp (h : UpdateHelper) (op : Operation) : Option UpdateHelper :=
  match op.operation_type with
  | .Copy_ => applyCopy h op.nb_lines op.line_num
  | .Skip => applySkip h op.nb_lines
  | .Invalidate => some (applyInvalidate h op.nb_lines)
  | .Insert => some (applyInsert h op.lines)
  | .Update => applyUpdate h op.nb_lines op.lines

/-- The loop of `UpdateHelper::update`. -/
def applyOps (h : UpdateHelper) : List Operation → Option UpdateHelper
  | [] => some h
  | op :: ops =>
    match applyOp h op with
    | none => none
    | some h' => applyOps h' ops

/-- The helper `LineCache::update` builds before processing the operations. -/
def initHelper (c : LineCache) : UpdateHelper :=
  { old_lines := c.lines, old_invalid_before := c.invalid_before,
    old_invalid_after := c.invalid_after,
    new_lines := [], new_invalid_before := 0, new_invalid_after := 0 }

/-- `LineCache::update`: run the operations, then install the `new_*` fields
as the cache's state.  `none` is a panic during the update. -/
def LineCache.update (c : LineCache) (u : Update) : Option LineCache :=
  (applyOps (initHelper c) u.operations).map
    (fun h => { invalid_before := h.new_invalid_before, lines := h.new_lines,
                invalid_after := h.new_invalid_after })

/-- The sum of the `n` (`nb_lines`) fields of an operation list. -/
def sumNbLines (ops : List Operation) : Nat :=
  (ops.map Operation.nb_lines).sum

/-- The number of lines available to a `Copy` operation: the whole old cache
(invalid lines before, materialized lines, invalid lines after). -/
def copyAvail (h : UpdateHelper) : Nat :=
  h.old_invalid_before + h.old_lines.length + h.old_invalid_after

/-! ## JSON values and the message codec (`protocol/message.rs`)

Frames are modeled at the level of the JSON values they parse to; an object
is an association list of string keys (serde_json's map), on which
`contains_key`/`remove` are transcribed below. -/

inductive Json where
  | null
  | bool (b : Bool)
  | num (n : Int)
  | str (s : String)
  | arr (elems : List Json)
  | obj (fields : List (String × Json))

/-- `Map::contains_key`. -/
def jContains (key : String) : List (String × Json) → Bool
  | [] => false
  | (k, _) :: rest => if k = key then true else jContains key rest

/-- `Map::remove`: the removed value together with the remaining map. -/
def jRemove (key : String) : List (String × Json) → Option (Json × List (String × Json))
  | [] => none
  | (k, v) :: rest =>
    if k = key then some (v, rest)
    else (jRemove key rest).map (fun p => (p.1, (k, v) :: p.2))

/-- `Value::as_str`. -/
def jAsStr : Json → Option String
  | .str s => some s
  | _ => none

/-- `Value::as_u64`: some exactly for integers representable as a `u64`. -/
def jAsU64 : Json → Option Nat
  | .num n => if 0 ≤ n ∧ n < (U64MOD : Int) then some n.toNat else none
  | _ => none

structure Request where
  id : Nat
  method : String
  params : Json

/-- Rust's `Result<Value, Value>` carried by a `Response`. -/
inductive RpcResult where
  | ok (v : Json)
  | err (v : Json)

structure Response where
  id : Nat
  result : RpcResult

structure Notification where
  method : String
  params : Json

inductive Message where
  | request (r : Request)
  | response (r : Response)
  | notification (n : Notification)

/-- The `DecodeError` variants used by `message.rs` and matched by
`codec.rs`. -/
inductive DecodeError where
  | Truncated
  | IoError
  | InvalidJson
  | InvalidMessage
deriving DecidableEq, Repr

inductive ValueType where
  | request
  | response
  | notification
  | invalid
deriving DecidableEq, Repr

/-- `get_message_type`. -/
def getMessageType (v : Json) : ValueType :=
  match v with
  | .obj map =>
    if jContains "method" map && jContains "params" map then
      if jContains "id" map then .request else .notification
    else if (jContains "result" map || jContains "error" map) && jContains "id" map then
      .response
    else .invalid
  | _ => .invalid

/-- `Request::decode`. -/
def Request.decode (v : Json) : Except DecodeError Request :=
  match v with
  | .obj map =>
    match jRemove "method" map with
    | none => .error .InvalidMessage
    | some (mv, map1) =>
      match jAsStr mv with
      | none => .error .InvalidMessage
      | some method =>
        match jRemove "params" map1 with
        | none => .error .InvalidMessage
        | some (params, map2) =>
          match jRemove "id" map2 with
          | none => .error .InvalidMessage
          | some (idv, _) =>
            match jAsU64 idv with
            | none => .error .InvalidMessage
            | some id => .ok { id := id, method := method, params := params }
  | _ => .error .InvalidMessage

/-- `Notification::decode`. -/
def Notification.decode (v : Json) : Except DecodeError Notification :=
  match v with
  | .obj map =>
    match jRemove "method" map with
    | none => .error .InvalidMessage
    | some (mv, map1) =>
      match jAsStr mv with
      | none => .error .InvalidMessage
      | some method =>
        match jRemove "params" map1 with
        | none => .error .InvalidMessage
        | some (params, _) => .ok { method := method, params := params }
  | _ => .error .InvalidMessage

/-- `Response::decode`: a `"result"` key yields `Ok`, else an `"error"` key
yields `Err`, else the frame is invalid; the id is read afterwards. -/
def Response.decode (v : Json) : Except DecodeError Response :=
  match v with
  | .obj map =>
    let res : Option (RpcResult × List (String × Json)) :=
      if jContains "result" map then
        (jRemove "result" map).map (fun p => (.ok p.1, p.2))
      else if jContains "error" map then
        (jRemove "error" map).map (fun p => (.err p.1, p.2))
      else none
    match res with
    | none => .error .InvalidMessage
    | some (result, map1) =>
      match jRemove "id" map1 with
      | none => .error .InvalidMessage
      | some (idv, _) =>
        match jAsU64 idv with
        | none => .error .InvalidMessage
        | some id => .ok { id := id, result := result }
  | _ => .error .InvalidMessage

/-- `Message::decode` on an already-parsed JSON value. -/
def decodeMessage (v : Json) : Except DecodeError Message :=
  match getMessageType v with
  | .request => (Request.decode v).map .request
  | .response => (Response.decode v).map .response
  | .notification => (Notification.decode v).map .notification
  | .invalid => .error .InvalidMessage

/-- The JSON value produced by the derived `Serialize` for `Request`
(declaration field order `id`, `method`, `params`). -/
def encodeRequest (r : Request) : Json :=
  .obj [("id", .num r.id), ("method", .str r.method), ("params", r.params)]

/-- The JSON value produced by the derived `Serialize` for `Response`: the
`Result<Value, Value>` field uses serde's externally tagged representation
`{"Ok": v}` / `{"Err": v}` under the `"result"` key. -/
def encodeResponse (r : Response) : Json :=
  .obj [("id", .num r.id),
        ("result", match r.result with
                   | .ok v => .obj [("Ok", v)]
                   | .err v => .obj [("Err", v)])]

/-- The JSON value produced by the derived `Serialize` for `Notification`. -/
def encodeNotification (n : Notification) : Json :=
  .obj [("method", .str n.method), ("params", n.params)]

/-- `Message::to_vec` at the JSON-value level. -/
def encodeMessage : Message → Json
  | .request r => encodeRequest r
  | .response r => encodeResponse r
  | .notification n => encodeNotification n

/-- `true` exactly for `Message::Response`. -/
def Message.isResponse : Message → Bool
  | .response _ => true
  | _ => false

/-- The ids carried by a message are valid `u64` values (automatic for any
message produced by decoding). -/
def Message.idBound : Message → Prop
  | .request r => r.id < U64MOD
  | .response r => r.id < U64MOD
  | .notification _ => True

/-! ## The `Codec::decode` scanning loop (`protocol/codec.rs`)

`Codec::decode` repeatedly calls `Message::decode` on a cursor over the
buffered bytes.  We abstract the buffer by the sequence of outcomes those
successive calls produce: a decoded message, an `InvalidJson` or
`InvalidMessage` error for a malformed complete line, or an I/O error; the
end of the list is the `Truncated` outcome (end of buffered input). -/

inductive FrameResult where
  | ok (m : Message)
  | invalidJson
  | invalidMessage
  | ioError

inductive CodecOutcome where
  | msg (m : Message)
  | needMoreBytes
  | ioFailure

/-- The loop of `Codec::decode`: `Ok(message)` breaks with the message,
`InvalidJson | InvalidMessage` continue scanning, `Truncated` returns
`Ok(None)` ("need more bytes"), `Io` breaks with the error. -/
def codecDecode : List FrameResult → CodecOutcome
  | [] => .needMoreBytes
  | .ok m :: _ => .msg m
  | .invalidJson :: rest => codecDecode rest
  | .invalidMessage :: rest => codecDecode rest
  | .ioError :: _ => .ioFailure

/-! ## `Transport::send` (`protocol/transport.rs` and `protocol/endpoint.rs`)

`start_send` either accepts the message (`AsyncSink::Ready`), reports a full
sink (`AsyncSink::NotReady(message)`), or fails.  `Transport::send` matches on
that outcome; `none` models the `panic!` branches. -/

inductive StartSendOutcome where
  | ready
  | notReady (m : Message)
  | sinkError

/-- `Transport::send`: returns normally only when the sink accepted the
message; a full sink (`NotReady`) and a sink error both panic. -/
def transportSend (r : StartSendOutcome) : Option Unit :=
  match r with
  | .ready => some ()
  | .notReady _ => none
  | .sinkError => none

/-! ## `InnerClient::process_response` (`protocol/client.rs` / `endpoint.rs`)

The pending-request table maps ids to one-shot completion senders; the
sender type is abstracted by a type parameter.  The function returns the new
client state together with the resolution event it performs (which completion
is resolved, and with which `Result`), `none` when no completion fires. -/

structure InnerClientState (τ : Type) where
  shutting_down : Bool
  pending_requests : List (Nat × τ)

/-- `InnerClient::process_response`. -/
def processResponse {τ : Type} (s : InnerClientState τ) (resp : Response) :
    InnerClientState τ × Option (τ × RpcResult) :=
  if s.shutting_down then (s, none)
  else
    match removeEntry resp.id s.pending_requests with
    | some (tx, rest) => ({ s with pending_requests := rest }, some (tx, resp.result))
    | none => (s, none)

/-! ## Concrete inputs used by the claims' counterexamples and witnesses -/

/-- A plain materialized line with the given text and no line number. -/
def mkLine (t : String) : Line := { text := t, cursor := [], styles := [], line_num := none }

def c1Cache : LineCache := ⟨0, [(0, mkLine "a")], 0⟩

def c1Ops : List Operation :=
  [⟨.Insert, 1, none, [mkLine "x"]⟩, ⟨.Copy_, 1, none, []⟩]

def c2Cache : LineCache :=
  ⟨0, [(0, mkLine "L1"), (1, mkLine "L2"), (2, mkLine "L3"),
       (3, mkLine "L4"), (4, mkLine "L5")], 0⟩

def c2Ops : List Operation :=
  [⟨.Copy_, 1, none, []⟩,
   ⟨.Insert, 2, none, [mkLine "N2", mkLine "N3"]⟩,
   ⟨.Skip, 2, none, []⟩,
   ⟨.Copy_, 2, none, []⟩]

/-- A numbered line. -/
def mkNumLine (t : String) (n : Nat) : Line :=
  { text := t, cursor := [], styles := [], line_num := some n }

def c4Cache : LineCache := ⟨0, [(0, mkNumLine "a" 5), (1, mkNumLine "b" 3)], 0⟩

def c4Op : Operation := ⟨.Copy_, 1, some 10, []⟩

def c4wCache : LineCache := ⟨0, [(0, mkNumLine "a" 5)], 0⟩

/-- The helper state `apply_copy` produces on `c4wCache` for
`Copy(1, Some(10))`: the single line is copied and renumbered `5 ↦ 10`. -/
def c4wHelper : UpdateHelper :=
  { old_lines := [], old_invalid_before := 0, old_invalid_after := 0,
    new_lines := [(0, mkNumLine "a" 10)], new_invalid_before := 0,
    new_invalid_after := 0 }

def c9Cache : LineCache := ⟨0, [(0, mkLine "")], 0⟩

def c6Msg : Message := .notification ⟨"ping", .null⟩

/-- The failure-Response frame `{"id": 1, "error": "oops"}`. -/
def c5Frame : Json := .obj [("id", .num 1), ("error", .str "oops")]

/-! ## Claim theorems -/

/-- The step-3 tail yields `none` (panics) when lines remain but the trailing
invalid region is too small. -/
theorem copyFinish_none (h : UpdateHelper) (nb2 oib1 nib1 : Nat)
    (old' new' : LineMap) (h1 : nb2 ≠ 0) (h2 : ¬ nb2 ≤ h.old_invalid_after) :
    copyFinish h nb2 oib1 nib1 old' new' = none := by
  unfold copyFinish
  rw [if_neg h1, if_neg h2]

/-- When the step-3 tail returns, the produced helper's `new_lines` is the
`new'` it was given. -/
theorem copyFinish_new_lines (h : UpdateHelper) (nb2 oib1 nib1 : Nat)
    (old' new' : LineMap) (h' : UpdateHelper)
    (happ : copyFinish h nb2 oib1 nib1 old' new' = some h') :
    h'.new_lines = new' := by
  unfold copyFinish at happ
  split at happ
  · injection happ with e
    rw [← e]
  · split at happ
    · injection happ with e
      rw [← e]
    · exact absurd happ (by simp)

/-- Steps 2/3 of `apply_copy` panic when more lines remain to copy than the
valid lines and the trailing invalid lines can supply. -/
theorem copyStep23_overrun (h : UpdateHelper) (nb1 oib1 nib1 : Nat)
    (fln : Option Nat)
    (hov : h.old_lines.length + h.old_invalid_after < nb1) :
    copyStep23 h nb1 oib1 nib1 fln = none := by
  have hlen : ¬ nb1 ≤ h.old_lines.length := by omega
  unfold copyStep23
  simp only [if_neg hlen]
  by_cases hv : 0 < h.old_lines.length
  · simp only [if_pos hv]
    cases htf : takeFrom h.old_lines.length h.old_lines 0 with
    | none => rfl
    | some p => cases p with
      | mk copied old' =>
        exact copyFinish_none _ _ _ _ _ _ (by omega) (by omega)
  · simp only [if_neg hv]
    exact copyFinish_none _ _ _ _ _ _ (by omega) (by omega)

/-- `apply_copy` panics whenever the operation requests more lines than the
whole old cache holds. -/
theorem applyCopy_overrun (h : UpdateHelper) (n : Nat) (fln : Option Nat)
    (hov : copyAvail h < n) : applyCopy h n fln = none := by
  unfold copyAvail at hov
  have h1 : ¬ n ≤ h.old_invalid_before := by omega
  unfold applyCopy
  rw [if_neg h1]
  by_cases h2 : 0 < h.old_invalid_after
  · rw [if_pos h2]
    exact copyStep23_overrun _ _ _ _ _ (by omega)
  · rw [if_neg h2]
    exact copyStep23_overrun _ _ _ _ _ (by omega)

/-- `apply_update` panics whenever the operation requests more lines than the
materialized region holds. -/
theorem applyUpdate_overrun (h : UpdateHelper) (n : Nat) (lines : List Line)
    (hov : h.old_lines.length < n) : applyUpdate h n lines = none := by
  unfold applyUpdate
  rw [if_pos hov]

/-- Splitting the operation loop over a `++`. -/
theorem applyOps_append (h : UpdateHelper) (l1 l2 : List Operation) :
    applyOps h (l1 ++ l2) =
      match applyOps h l1 with
      | none => none
      | some h' => applyOps h' l2 := by
  induction l1 generalizing h with
  | nil => rfl
  | cons op ops ih =>
    simp only [List.cons_append, applyOps]
    cases applyOp h op with
    | none => rfl
    | some h' => exact ih h'

/-- C10: for every prior cache state, an `Update` whose operation list is
empty resets the cache to the empty state: afterwards `before() = 0`,
`after() = 0` and the materialized lines are gone. -/
theorem emptyOpsWipesCache (c : LineCache) (rev : Option Nat) :
    c.update ⟨rev, []⟩ = some ⟨0, [], 0⟩ := rfl

/-- C9 (amended): `LineCache::is_empty` returns `true` exactly when the
materialized lines map is empty, regardless of `before`/`after`. -/
theorem isEmptyIffNoLines (c : LineCache) : c.isEmpty = true ↔ c.lines = [] := by
  cases c with
  | mk b l a => cases l <;> simp [LineCache.isEmpty]

/-- C9 counterexample: `c9Cache` represents exactly one line (height 1) whose
text is the empty string, yet `is_empty()` returns `false` on it — the code
only tests whether the materialized map is empty. -/
theorem isEmptyCounterexample :
    c9Cache.height = 1 ∧ (c9Cache.lines.map fun p => p.2.text) = [""] ∧
      c9Cache.isEmpty = false :=
  ⟨rfl, rfl, rfl⟩

/-- C1: evaluation at the failing input.  `c1Cache` has height 1 and
`c1Ops = [Insert(1, [x]), Copy(1)]` is consistent with that height (its
`Copy`/`Skip`/`Update` operations consume exactly 1 line), so the claim
demands a new height of `Σ n = 2`; the code returns normally with height 1:
`apply_insert` stores the inserted line under key 0, and `apply_copy` then
re-inserts the copied old line under the same key 0, overwriting it. -/
theorem insertThenCopyLosesALine :
    (c1Cache.update ⟨none, c1Ops⟩).map LineCache.height = some 1 ∧
      sumNbLines c1Ops = 2 :=
  ⟨rfl, rfl⟩

/-- C2: evaluation at the spec's worked example.  On
`before=0, lines=[L1..L5], after=0` with
`[Copy(1), Insert(2,[N2,N3]), Skip(2), Copy(2)]` the code panics (modeled as
`none`) instead of producing `[L1, N2, N3, L4, L5]`: after `Copy(1)` the old
map's keys start at 1, `Skip(2)` erases keys 0 and 1 (so it discards only
`L2`), and the final `Copy(2)` unwraps `remove_entry(&0)` on a map whose
least key is 2. -/
theorem workedExampleCrashes : c2Cache.update ⟨none, c2Ops⟩ = none := rfl

/-- C7: evaluation at the failing condition.  Whenever `start_send` reports a
full sink (`AsyncSink::NotReady`), `Transport::send` takes the
`panic!("The sink is full.")` branch (modeled as `none`) — it does not apply
backpressure. -/
theorem sendPanicsOnFullSink (m : Message) : transportSend (.notReady m) = none := rfl

/-- C6 counterexample: with a buffer that starts with a malformed complete
line followed by a valid message, `Codec::decode` silently skips the
malformed line and returns the later message; with only the malformed line
buffered it returns "need more bytes".  In neither case does it surface a
decode error to the caller. -/
theorem codecSkipsMalformedLine :
    codecDecode [.invalidJson, .ok c6Msg] = .msg c6Msg ∧
      codecDecode [.invalidJson] = .needMoreBytes :=
  ⟨rfl, rfl⟩

/-- C6 (amended): `Codec::decode` never surfaces a decode error for a
malformed complete line: `InvalidJson` and `InvalidMessage` outcomes are
skipped and scanning continues; the first decodable message is returned, and
an exhausted buffer yields "need more bytes". -/
theorem codecScanBehavior :
    (∀ rest, codecDecode (.invalidJson :: rest) = codecDecode rest) ∧
      (∀ rest, codecDecode (.invalidMessage :: rest) = codecDecode rest) ∧
      (∀ m rest, codecDecode (.ok m :: rest) = .msg m) ∧
      codecDecode [] = .needMoreBytes :=
  ⟨fun _ => rfl, fun _ => rfl, fun _ _ => rfl, rfl⟩

/-- C8: `process_response` resolves the pending completion exactly once with
the response's result (same `Ok`/`Err` tag) and removes the entry when the
client is not shutting down and the id is pending; otherwise (shutting down,
or unknown id) it discards the response, changing nothing and resolving
nothing. -/
theorem responseCorrelation {τ : Type} (s : InnerClientState τ) (resp : Response) :
    (s.shutting_down = true → processResponse s resp = (s, none)) ∧
      (s.shutting_down = false → ∀ tx rest,
        removeEntry resp.id s.pending_requests = some (tx, rest) →
        processResponse s resp =
          ({ s with pending_requests := rest }, some (tx, resp.result))) ∧
      (s.shutting_down = false → removeEntry resp.id s.pending_requests = none →
        processResponse s resp = (s, none)) := by
  unfold processResponse
  exact ⟨fun h => by simp [h],
         fun h tx rest hr => by simp [h, hr],
         fun h hr => by simp [h, hr]⟩

/-- C8 witness: a concrete pending table with id 1 resolves completion
token 7 with the response's `Ok` payload and empties the table. -/
theorem responseCorrelationWitness :
    processResponse (τ := Nat) ⟨false, [(1, 7)]⟩ ⟨1, .ok .null⟩ =
      (⟨false, []⟩, some (7, .ok .null)) :=
  (responseCorrelation ⟨false, [(1, 7)]⟩ ⟨1, .ok .null⟩).2.1 rfl 7 [] rfl

/-- C3: a `Copy` operation requesting more lines than the whole old cache
holds at that point, or an `Update` operation requesting more lines than the
materialized region holds, makes `LineCache::update` panic (modeled `none`):
it never returns normally with a truncated or padded cache. -/
theorem overrunFailsFast (c : LineCache) (rev : Option Nat)
    (pre post : List Operation) (op : Operation) (h : UpdateHelper)
    (hpre : applyOps (initHelper c) pre = some h)
    (hov : (op.operation_type = .Copy_ ∧ copyAvail h < op.nb_lines) ∨
           (op.operation_type = .Update ∧ h.old_lines.length < op.nb_lines)) :
    c.update ⟨rev, pre ++ op :: post⟩ = none := by
  have hop : applyOp h op = none := by
    rcases hov with ⟨ht, hb⟩ | ⟨ht, hb⟩
    · unfold applyOp
      rw [ht]
      exact applyCopy_overrun _ _ _ hb
    · unfold applyOp
      rw [ht]
      exact applyUpdate_overrun _ _ _ hb
  unfold LineCache.update
  rw [applyOps_append, hpre]
  simp only [applyOps, hop, Option.map_none']

/-- C3 witness: copying one line out of an empty cache panics. -/
theorem overrunFailsFastWitness :
    LineCache.update ⟨0, [], 0⟩ ⟨none, [⟨.Copy_, 1, none, []⟩]⟩ = none :=
  overrunFailsFast ⟨0, [], 0⟩ none [] [] ⟨.Copy_, 1, none, []⟩
    (initHelper ⟨0, [], 0⟩) rfl (Or.inl ⟨rfl, by decide⟩)

/-! ### Map lemmas used for the copy-renumbering claim -/

theorem removeEntry_lookup {α : Type} (k : Nat) :
    ∀ (m : List (Nat × α)) (v : α) (m' : List (Nat × α)),
      removeEntry k m = some (v, m') → lookupKey k m = some v
  | [], _, _, h => by simp [removeEntry] at h
  | (k', v') :: rest, v, m', h => by
    by_cases hk : k' = k
    · simp only [removeEntry, if_pos hk, Option.some.injEq, Prod.mk.injEq] at h
      simp only [lookupKey, if_pos hk]
      exact congrArg some h.1
    · simp only [removeEntry, if_neg hk] at h
      simp only [lookupKey, if_neg hk]
      cases hr : removeEntry k rest with
      | none => rw [hr] at h; simp at h
      | some q =>
        obtain ⟨w, rest'⟩ := q
        rw [hr] at h
        simp only [Option.map_some', Option.some.injEq, Prod.mk.injEq] at h
        exact removeEntry_lookup k rest v rest' (by rw [hr, ← h.1])

theorem removeEntry_lookup_other {α : Type} (k i : Nat) (hne : i ≠ k) :
    ∀ (m : List (Nat × α)) (v : α) (m' : List (Nat × α)),
      removeEntry k m = some (v, m') → lookupKey i m' = lookupKey i m
  | [], v, m', h => by simp [removeEntry] at h
  | (k', v') :: rest, v, m', h => by
    by_cases hk : k' = k
    · simp only [removeEntry, if_pos hk, Option.some.injEq, Prod.mk.injEq] at h
      rw [← h.2]
      simp only [lookupKey]
      rw [if_neg (fun hh : k' = i => hne (hh ▸ hk ▸ rfl))]
    · simp only [removeEntry, if_neg hk] at h
      cases hr : removeEntry k rest with
      | none => rw [hr] at h; simp at h
      | some q =>
        obtain ⟨w, rest'⟩ := q
        rw [hr] at h
        simp only [Option.map_some', Option.some.injEq, Prod.mk.injEq] at h
        rw [← h.2]
        simp only [lookupKey]
        by_cases hki : k' = i
        · rw [if_pos hki, if_pos hki]
        · rw [if_neg hki, if_neg hki]
          exact removeEntry_lookup_other k i hne rest v rest' (by rw [hr, ← h.1])

theorem takeFrom_mem :
    ∀ (count : Nat) (m : LineMap) (start : Nat) (copied : List (Nat × Line))
      (m' : LineMap),
      takeFrom count m start = some (copied, m') →
      ∀ p ∈ copied, start ≤ p.1 ∧ lookupKey p.1 m = some p.2
  | 0, m, start, copied, m', h => by
    simp only [takeFrom, Option.some.injEq, Prod.mk.injEq] at h
    rw [← h.1]
    intro p hp
    simp at hp
  | (n + 1), m, start, copied, m', h => by
    simp only [takeFrom] at h
    split at h
    · exact absurd h (by simp)
    next l m1 hr =>
      cases htf : takeFrom n m1 (start + 1) with
      | none => rw [htf] at h; simp at h
      | some r =>
        obtain ⟨rest, m2⟩ := r
        rw [htf] at h
        simp only [Option.map_some', Option.some.injEq, Prod.mk.injEq] at h
        intro p hp
        rw [← h.1] at hp
        rcases List.mem_cons.mp hp with rfl | hp'
        · exact ⟨Nat.le_refl _, removeEntry_lookup start m l m1 hr⟩
        · obtain ⟨hle, hlk⟩ := takeFrom_mem n m1 (start + 1) rest m2 (by rw [htf]) p hp'
          refine ⟨by omega, ?_⟩
          rw [← hlk]
          exact (removeEntry_lookup_other start p.1 (by omega) m l m1 hr).symm

theorem mem_insertKey {α : Type} (k : Nat) (v : α) (m : List (Nat × α))
    (p : Nat × α) (h : p ∈ insertKey k v m) : p = (k, v) ∨ p ∈ m := by
  induction m with
  | nil => simp [insertKey] at h; simp [h]
  | cons q rest ih =>
    obtain ⟨k', v'⟩ := q
    by_cases hk : k' = k
    · simp only [insertKey, if_pos hk] at h
      rcases List.mem_cons.mp h with rfl | h'
      · exact Or.inl rfl
      · exact Or.inr (List.mem_cons_of_mem _ h')
    · simp only [insertKey, if_neg hk] at h
      rcases List.mem_cons.mp h with rfl | h'
      · exact Or.inr (List.mem_cons_self _ _)
      · rcases ih h' with h'' | h''
        · exact Or.inl h''
        · exact Or.inr (List.mem_cons_of_mem _ h'')

theorem mem_extendMap {α : Type} (l : List (Nat × α)) (m : List (Nat × α))
    (p : Nat × α) (h : p ∈ extendMap m l) : p ∈ m ∨ p ∈ l := by
  induction l generalizing m with
  | nil => exact Or.inl h
  | cons q rest ih =>
    have h' : p ∈ extendMap (insertKey q.1 q.2 m) rest := h
    rcases ih (insertKey q.1 q.2 m) h' with h'' | h''
    · rcases mem_insertKey q.1 q.2 m p h'' with rfl | h3
      · exact Or.inr (List.mem_cons_self _ _)
      · exact Or.inl h3
    · exact Or.inr (List.mem_cons_of_mem _ h'')

theorem lookupKey_mem {α : Type} (k : Nat) (m : List (Nat × α)) (v : α)
    (h : lookupKey k m = some v) : (k, v) ∈ m := by
  induction m with
  | nil => simp [lookupKey] at h
  | cons q rest ih =>
    obtain ⟨k', v'⟩ := q
    by_cases hk : k' = k
    · simp only [lookupKey, if_pos hk, Option.some.injEq] at h
      subst hk; subst h
      exact List.mem_cons_self _ _
    · simp only [lookupKey, if_neg hk] at h
      exact List.mem_cons_of_mem _ (ih h)

/-! ### Wrapping-arithmetic lemmas -/

theorem asI64_small (n : Nat) (h : n < 2 ^ 63) : asI64 n = (n : Int) := by
  have h64 : n < U64MOD := by
    have h' : (2 : Nat) ^ 63 < 2 ^ 64 := by norm_num
    unfold U64MOD
    omega
  unfold asI64
  rw [Nat.mod_eq_of_lt h64, if_pos h]

theorem wrapI64_small (x : Int) (h1 : -(2 ^ 63) ≤ x) (h2 : x < 2 ^ 63) :
    wrapI64 x = x := by
  unfold wrapI64
  have hM : ((U64MOD : Nat) : Int) = 2 ^ 64 := by norm_num [U64MOD]
  rw [hM]
  have e1 : (0 : Int) ≤ x + 2 ^ 63 := by omega
  have e2 : x + 2 ^ 63 < 2 ^ 64 := by
    have h' : (2 : Int) ^ 63 + 2 ^ 63 = 2 ^ 64 := by norm_num
    omega
  have e3 : (x + 2 ^ 63).emod (2 ^ 64) = x + 2 ^ 63 := Int.emod_eq_of_lt e1 e2
  rw [e3]
  omega

/-- Adding the `diff = b − c` of two small `u64`s to a small `u64` `a` through
the `i64` casts of the code equals `(a + b − c) mod 2⁶⁴` computed in `ℤ`. -/
theorem addDiff_formula (a b c : Nat) (ha : a < 2 ^ 62) (hb : b < 2 ^ 62)
    (hc : c < 2 ^ 62) :
    asU64 (i64Add (asI64 a) (i64Sub (asI64 b) (asI64 c))) =
      (((a : Int) + b - c).emod ((U64MOD : Nat) : Int)).toNat := by
  have p62 : (2 : Nat) ^ 62 < 2 ^ 63 := by norm_num
  have ha' : ((a : Int)) < 2 ^ 62 := by exact_mod_cast ha
  have hb' : ((b : Int)) < 2 ^ 62 := by exact_mod_cast hb
  have hc' : ((c : Int)) < 2 ^ 62 := by exact_mod_cast hc
  have hq : ((2 : Int) ^ 62) + 2 ^ 62 ≤ 2 ^ 63 := by norm_num
  rw [asI64_small a (by omega), asI64_small b (by omega), asI64_small c (by omega)]
  unfold i64Sub
  rw [wrapI64_small ((b : Int) - c)
    (by have := Int.ofNat_nonneg b; have := Int.ofNat_nonneg c; omega)
    (by have := Int.ofNat_nonneg c; omega)]
  unfold i64Add
  rw [wrapI64_small ((a : Int) + ((b : Int) - c))
    (by have := Int.ofNat_nonneg a; have := Int.ofNat_nonneg b;
        have := Int.ofNat_nonneg c; omega)
    (by have := Int.ofNat_nonneg c; omega)]
  unfold asU64
  congr 2
  ring

/-- All line numbers small gives a small minimum. -/
theorem minLineNum_lt (m : LineMap)
    (hb : ∀ p ∈ m, p.2.line_num.getD 0 < 2 ^ 62) : minLineNum m < 2 ^ 62 := by
  unfold minLineNum
  cases hmin : ((m.map Prod.snd).filterMap Line.line_num).min? with
  | none => norm_num
  | some v =>
    have hv : v ∈ (m.map Prod.snd).filterMap Line.line_num :=
      List.min?_mem (fun a b => by rw [Nat.min_def]; split <;> simp) hmin
    obtain ⟨l, hl, hln⟩ := List.mem_filterMap.mp hv
    obtain ⟨p, hp, rfl⟩ := List.mem_map.mp hl
    have hpb := hb p hp
    rw [hln] at hpb
    simpa using hpb

/-- Structural description of the lines `copyStep23` adds to an initially
empty `new_lines`: each is an old materialized line passed through
`renumber` with the `copyDiff` of the old map. -/
theorem copyStep23_renumber (h : UpdateHelper) (nb1 oib1 nib1 nfln : Nat)
    (h' : UpdateHelper) (hnew : h.new_lines = [])
    (happ : copyStep23 h nb1 oib1 nib1 (some nfln) = some h') :
    ∀ p ∈ h'.new_lines, ∃ l, lookupKey p.1 h.old_lines = some l ∧
      p.2 = renumber (copyDiff (some nfln) h.old_lines) l := by
  unfold copyStep23 at happ
  by_cases hv : 0 < h.old_lines.length
  · simp only [if_pos hv] at happ
    split at happ
    next => exact absurd happ (by simp)
    next copied old' htf =>
      have hmem := takeFrom_mem _ _ _ _ _ htf
      have hnl := copyFinish_new_lines _ _ _ _ _ _ _ happ
      intro p hp
      rw [hnl, hnew] at hp
      rcases mem_extendMap _ _ _ hp with h0 | h0
      · exact absurd h0 (List.not_mem_nil _)
      · obtain ⟨q, hq, rfl⟩ := List.mem_map.mp h0
        exact ⟨q.2, (hmem q hq).2, rfl⟩
  · simp only [if_neg hv] at happ
    have hnl := copyFinish_new_lines _ _ _ _ _ _ _ happ
    intro p hp
    rw [hnl, hnew] at hp
    exact absurd hp (List.not_mem_nil _)

/-- C4 counterexample: old cache `{0 ↦ (text "a", ln 5), 1 ↦ (text "b", ln 3)}`,
operation `Copy(1, Some(10))`.  Only the line numbered 5 is copied, so the
claim's `diff = 10 − 5 = 5` demands new number 10; the code computes
`diff = 10 − min = 10 − 3 = 7` from the whole old map and renumbers the
copied line to 12. -/
theorem copyRenumberCounterexample :
    (c4Cache.update ⟨none, [c4Op]⟩).map (fun c => c.lines.map fun p => p.2.line_num) =
      some [some 12] ∧ (12 : Nat) ≠ 10 :=
  ⟨rfl, by decide⟩

/-- C4 (amended): for a `Copy` carrying `new_first_line_num` applied with an
empty `new_lines` so far, every copied materialized line keeps its text,
cursor and styles, and its line number (when it has one) becomes
`old + diff (mod 2⁶⁴)` where `diff = new_first_line_num − (the minimum known
line number over all lines of the old materialized map, 0 if none)`; lines
without a number stay unnumbered.  (Stated under `< 2⁶²` bounds so the `i64`
casts do not wrap.) -/
theorem copyRenumberByMinimum (h : UpdateHelper) (n nfln : Nat)
    (h' : UpdateHelper) (hnew : h.new_lines = [])
    (happ : applyCopy h n (some nfln) = some h')
    (hb : ∀ p ∈ h.old_lines, p.2.line_num.getD 0 < 2 ^ 62)
    (hn : nfln < 2 ^ 62) :
    ∀ p ∈ h'.new_lines, ∃ l, lookupKey p.1 h.old_lines = some l ∧
      p.2.text = l.text ∧ p.2.cursor = l.cursor ∧ p.2.styles = l.styles ∧
      p.2.line_num = l.line_num.map (fun ln =>
        (((ln : Int) + nfln - minLineNum h.old_lines).emod
          ((U64MOD : Nat) : Int)).toNat) := by
  have key : ∀ p ∈ h'.new_lines, ∃ l, lookupKey p.1 h.old_lines = some l ∧
      p.2 = renumber (copyDiff (some nfln) h.old_lines) l := by
    unfold applyCopy at happ
    split at happ
    · injection happ with e
      have hh : h'.new_lines = h.new_lines := by rw [← e]
      intro p hp
      rw [hh, hnew] at hp
      exact absurd hp (List.not_mem_nil _)
    · split at happ
      · exact copyStep23_renumber _ _ _ _ _ _ hnew happ
      · exact copyStep23_renumber _ _ _ _ _ _ hnew happ
  intro p hp
  obtain ⟨l, hl, hrn⟩ := key p hp
  have hlb : ∀ ln, l.line_num = some ln → ln < 2 ^ 62 := by
    intro ln hln
    have hmem := lookupKey_mem _ _ _ hl
    have hpb := hb (p.1, l) hmem
    rw [hln] at hpb
    simpa using hpb
  refine ⟨l, hl, by rw [hrn]; simp [renumber], by rw [hrn]; simp [renumber],
    by rw [hrn]; simp [renumber], ?_⟩
  rw [hrn]
  show (l.line_num.map fun ln =>
    asU64 (i64Add (asI64 ln) (copyDiff (some nfln) h.old_lines))) = _
  cases hln : l.line_num with
  | none => rfl
  | some ln =>
    simp only [Option.map_some']
    congr 1
    unfold copyDiff
    exact addDiff_formula ln nfln (minLineNum h.old_lines) (hlb ln hln) hn
      (minLineNum_lt _ hb)

/-- C4 witness: on an old map holding the single line `(text "a", ln 5)`,
`Copy(1, Some(10))` renumbers it to `5 + (10 − 5) = 10`. -/
theorem copyRenumberWitness :
    ∃ l, lookupKey 0 c4wCache.lines = some l ∧
      (mkNumLine "a" 10).text = l.text ∧ (mkNumLine "a" 10).cursor = l.cursor ∧
      (mkNumLine "a" 10).styles = l.styles ∧
      (mkNumLine "a" 10).line_num = l.line_num.map (fun ln =>
        (((ln : Int) + 10 - minLineNum c4wCache.lines).emod
          ((U64MOD : Nat) : Int)).toNat) :=
  copyRenumberByMinimum (initHelper c4wCache) 1 10 c4wHelper rfl rfl
    (by decide) (by decide) (0, mkNumLine "a" 10) (by decide)

/-- C5 counterexample: the failure Response does not round-trip.  Decoding
`{"id": 1, "error": "oops"}` gives `Response { id: 1, result: Err("oops") }`;
re-encoding it (derived `Serialize`) gives
`{"id": 1, "result": {"Err": "oops"}}`, which decodes to a Response whose
result is `Ok({"Err": "oops"})` — a different Message. -/
theorem responseRoundTripFails :
    decodeMessage c5Frame = .ok (.response ⟨1, .err (.str "oops")⟩) ∧
      decodeMessage (encodeMessage (.response ⟨1, .err (.str "oops")⟩)) =
        .ok (.response ⟨1, .ok (.obj [("Err", .str "oops")])⟩) ∧
      Message.response ⟨1, .ok (.obj [("Err", .str "oops")])⟩ ≠
        Message.response ⟨1, .err (.str "oops")⟩ :=
  ⟨rfl, rfl, by simp⟩

/-- `Request::decode` on an encoded-request-shaped object whose id value
parses as a `u64`. -/
theorem requestDecodeObj (j : Json) (id : Nat) (method : String) (params : Json)
    (hj : jAsU64 j = some id) :
    Request.decode (.obj [("id", j), ("method", .str method), ("params", params)]) =
      .ok ⟨id, method, params⟩ := by
  show (match jAsU64 j with
        | none => (Except.error DecodeError.InvalidMessage : Except DecodeError Request)
        | some i => Except.ok ⟨i, method, params⟩) = Except.ok ⟨id, method, params⟩
  rw [hj]

/-- C5 (amended): encode-after-decode round-trips for Request and
Notification messages (a decoded request's id is always a valid `u64`, which
the hypothesis records); Response messages are excluded — their result is
re-encoded under `"result"` in serde's `{"Ok"/"Err": v}` form and does not
decode back to the same Message. -/
theorem requestNotificationRoundTrip (m : Message) (hnr : m.isResponse = false)
    (hid : m.idBound) : decodeMessage (encodeMessage m) = .ok m := by
  cases m with
  | response r => simp [Message.isResponse] at hnr
  | notification n => rfl
  | request r =>
    obtain ⟨id, method, params⟩ := r
    have hid' : id < U64MOD := hid
    have hc : (0 : Int) ≤ (id : Int) ∧ (id : Int) < ((U64MOD : Nat) : Int) :=
      ⟨Int.ofNat_nonneg id, by exact_mod_cast hid'⟩
    have hAs : jAsU64 (.num (id : Int)) = some id := by
      show (if 0 ≤ (id : Int) ∧ (id : Int) < ((U64MOD : Nat) : Int)
            then some (id : Int).toNat else none) = some id
      rw [if_pos hc]
      simp
    show (Request.decode (.obj [("id", .num (id : Int)), ("method", .str method),
          ("params", params)])).map Message.request =
        .ok (.request ⟨id, method, params⟩)
    rw [requestDecodeObj _ _ _ _ hAs]
    rfl

/-- C5 witness: a concrete request round-trips. -/
theorem requestRoundTripWitness :
    decodeMessage (encodeMessage (.request ⟨1, "edit", .null⟩)) =
      .ok (.request ⟨1, "edit", .null⟩) :=
  requestNotificationRoundTrip (.request ⟨1, "edit", .null⟩) rfl
    (show (1 : Nat) < U64MOD by decide)

end Xrl
